import Mathlib

/-!
# Verification of the droid-bridge translation-and-rotation core

A shallow embedding, in Lean 4, of the pure request-building, message
conversion, schema sanitization, account rotation and response/stream
parsing logic of the droid-bridge server (src/index.ts, src/codex.ts,
src/antigravity.ts, src/types.ts), together with theorems settling the
behavioral claims about that logic.

Modelling conventions:
* JavaScript strings are modelled as `String` where only equality,
  concatenation and joining matter, and as `List Char` where positional
  slicing (`String.prototype.slice`) matters (the streaming diff logic).
* JSON values are modelled by the inductive type `Json`; JavaScript
  object iteration order is preserved by keeping entries as ordered lists.
* Numeric fields that the code only compares and copies (token counts,
  HTTP status codes) are modelled as `Nat`.
* JavaScript truthiness is made explicit wherever the code relies on it.
* Network effects are modelled by passing in the sequence of upstream
  responses (a script); the handler consumes one entry per upstream call.
-/

namespace DroidBridge

/-! ## JSON values (src/antigravity.ts: cleanSchema input) -/

/-- JSON values.  Numbers are modelled as integers: `cleanSchema` only
copies numeric leaves and tests them for truthiness, so the fractional
part is irrelevant to every claim. -/
inductive Json where
  | null : Json
  | bool (b : Bool) : Json
  | num (n : Int) : Json
  | str (s : String) : Json
  | arr (items : List Json) : Json
  | obj (entries : List (String × Json)) : Json

/-- JavaScript truthiness of a JSON value (`Boolean(v)`): `null`,
`false`, `0` and `""` are falsy; every array and object is truthy. -/
def Json.truthy : Json → Bool
  | .null => false
  | .bool b => b
  | .num n => n != 0
  | .str s => s != ""
  | .arr _ => true
  | .obj _ => true

/-- `typeof v === "object" && v` in the cleanSchema recursion: arrays and
objects (JavaScript `null` is excluded there by the truthiness guard). -/
def Json.isContainer : Json → Bool
  | .arr _ => true
  | .obj _ => true
  | _ => false

/-- The `cleaned !== null` guard (`cleaned !== undefined` can never fire:
cleanSchema of a container is a container). -/
def Json.isNull : Json → Bool
  | .null => true
  | _ => false

/-- src/antigravity.ts UNSUPPORTED_SCHEMA_FIELDS. -/
def UNSUPPORTED_SCHEMA_FIELDS : List String :=
  ["definitions", "$schema", "$id", "$ref", "$defs",
   "exclusiveMinimum", "exclusiveMaximum",
   "minLength", "maxLength", "pattern", "format",
   "minItems", "maxItems", "uniqueItems", "additionalItems", "contains",
   "additionalProperties", "propertyNames", "minProperties", "maxProperties",
   "allOf", "anyOf", "oneOf", "not",
   "if", "then", "else", "const",
   "contentMediaType", "contentEncoding", "examples", "default",
   "deprecated", "readOnly", "writeOnly"]

/-- `key.startsWith("$") || UNSUPPORTED_SCHEMA_FIELDS.has(key)`.  For the
one-character pattern `"$"`, `startsWith` is exactly "the first character
is `'$'`", which is how it is modelled here. -/
def bannedKey (k : String) : Bool :=
  (k.data.head? == some '$') || UNSUPPORTED_SCHEMA_FIELDS.contains k

/-- First value bound to `key` in an entry list (JavaScript property read
on an object whose keys are unique). -/
def getKey : List (String × Json) → String → Option Json
  | [], _ => Option.none
  | (k, v) :: rest, key => if k = key then some v else getKey rest key

/-- JavaScript property write `r[key] = val`: overwrite in place if the
key exists, otherwise append at the end (insertion order). -/
def setKey : List (String × Json) → String → Json → List (String × Json)
  | [], key, val => [(key, val)]
  | (k, v) :: rest, key, val =>
    if k = key then (k, val) :: rest else (k, v) :: setKey rest key val

/-- Truthiness of a possibly-absent property. -/
def optTruthy : Option Json → Bool
  | some v => v.truthy
  | Option.none => false

/-- The trailing step of cleanSchema on objects: `if (result["properties"]
&& !result["type"]) result["type"] = "object"`. -/
def fixType (r : List (String × Json)) : List (String × Json) :=
  if optTruthy (getKey r "properties") && !optTruthy (getKey r "type") then
    setKey r "type" (.str "object")
  else r

mutual

/-- src/antigravity.ts cleanSchema.  Primitives (and `null`) are returned
unchanged; arrays are cleaned elementwise and falsy elements dropped
(`map(cleanSchema).filter(Boolean)`, fused into one pass); objects drop
denylisted / `$`-prefixed keys, recursively clean container values, and
finally infer `type: "object"` when `properties` is present without a
truthy `type`. -/
def cleanSchema : Json → Json
  | .null => .null
  | .bool b => .bool b
  | .num n => .num n
  | .str s => .str s
  | .arr items => .arr (cleanArr items)
  | .obj entries => .obj (fixType (cleanObj entries))

/-- Array branch of cleanSchema: `obj.map(cleanSchema).filter(Boolean)`. -/
def cleanArr : List Json → List Json
  | [] => []
  | x :: xs =>
    let c := cleanSchema x
    if c.truthy then c :: cleanArr xs else cleanArr xs

/-- Object branch of cleanSchema, before the `type` inference: the
`for (const [key, value] of Object.entries(obj))` loop. -/
def cleanObj : List (String × Json) → List (String × Json)
  | [] => []
  | (k, v) :: rest =>
    if bannedKey k then cleanObj rest
    else if v.truthy && v.isContainer then
      let c := cleanSchema v
      if c.isNull then cleanObj rest else (k, c) :: cleanObj rest
    else (k, v) :: cleanObj rest

end

/-- Invariant of entry lists produced by `cleanObj`: every surviving key
passed the denylist filter and every value is a cleanSchema fixed point. -/
def CleanedEntries (r : List (String × Json)) : Prop :=
  ∀ p ∈ r, bannedKey p.1 = false ∧ cleanSchema p.2 = p.2

/-! ## Rotating account pool (src/index.ts: getNextAccount / rotateAccount) -/

/-- The two upstream providers. -/
inductive Provider where
  | antigravity
  | codex
deriving DecidableEq, Repr

/-- Provider name as interpolated into the "No ... accounts available"
error message. -/
def Provider.pname : Provider → String
  | .antigravity => "antigravity"
  | .codex => "codex"

/-- A provider account.  Of the stored fields, the rotation and retry
logic under verification consults only `id` (the `newAccount.id !==
account.id` guard); the remaining credential fields are carried by the
collaborators that are out of scope here. -/
structure Account where
  id : String
deriving DecidableEq, Repr

/-- src/index.ts getNextAccount: the account at `cursor % accounts.length`,
or null for an empty pool.  The cursor itself is not mutated. -/
def getNextAccount (accounts : List Account) (cursor : Nat) : Option Account :=
  if h : accounts.length = 0 then Option.none
  else some (accounts.get ⟨cursor % accounts.length, Nat.mod_lt _ (Nat.pos_of_ne_zero h)⟩)

/-- A concrete two-account pool used by witnesses. -/
def acctA : Account := { id := "acct-a" }

/-- A second concrete account used by witnesses. -/
def acctB : Account := { id := "acct-b" }

/-! ## Canonical (OpenAI-style) messages (src/types.ts) -/

/-- Message roles. -/
inductive Role where
  | system
  | user
  | assistant
  | tool
deriving DecidableEq, Repr

/-- One element of an array-valued `content`.  An `image_url` part is
modelled together with the result of the `data:` URL regex match of
src/antigravity.ts (`imageDataItem` when the URL is a well-formed base64
data URL, `otherItem` when the part is skipped). -/
inductive ContentItem where
  | textItem (s : String)
  | imageDataItem (mimeType : String) (data : String)
  | otherItem
deriving DecidableEq, Repr

/-- `content: string | ContentPart[] | null`. -/
inductive MsgContent where
  | str (s : String)
  | parts (items : List ContentItem)
  | nullContent
deriving DecidableEq, Repr

/-- An assistant tool call.  `function.arguments` is a raw JSON string the
adapters copy around (or parse opaquely); it is kept uninterpreted. -/
structure ToolCall where
  id : String
  name : String
  argumentsRaw : String
deriving DecidableEq, Repr

/-- src/types.ts ChatMessage.  Absent optional fields are `none`. -/
structure Msg where
  role : Role
  content : MsgContent := .nullContent
  name : Option String := Option.none
  tool_calls : Option (List ToolCall) := Option.none
  tool_call_id : Option String := Option.none
deriving DecidableEq, Repr

/-- Truthiness of `msg.tool_calls?.length`: present and non-empty. -/
def msgHasToolCalls (m : Msg) : Bool :=
  match m.tool_calls with
  | some l => !l.isEmpty
  | Option.none => false

/-! ## Model registry (src/types.ts: MODELS) -/

/-- src/types.ts ModelConfig.  `temperature`-like float knobs are not
modelled: no claim consults them. -/
structure ModelConfig where
  id : String
  displayName : String
  provider : Provider
  actualModel : String
  endpoint : String
  contextLimit : Nat
  outputLimit : Nat
  isThinking : Bool := false
  thinkingBudget : Option Nat := Option.none
  thinkingLevel : Option String := Option.none
deriving DecidableEq, Repr

/-- Shared Antigravity endpoint base. -/
def agEndpoint : String := "https://daily-cloudcode-pa.sandbox.googleapis.com"

/-- Shared Codex endpoint base. -/
def codexEndpoint : String := "https://chatgpt.com/backend-api"

/-- src/types.ts MODELS, keyed by public model id. -/
def MODELS : String → Option ModelConfig
  | "claude-sonnet-4.5" => some
      { id := "claude-sonnet-4.5", displayName := "Claude Sonnet 4.5",
        provider := .antigravity, actualModel := "claude-sonnet-4-5",
        endpoint := agEndpoint, contextLimit := 200000, outputLimit := 64000 }
  | "claude-sonnet-4.5-thinking-low" => some
      { id := "claude-sonnet-4.5-thinking-low", displayName := "Claude Sonnet 4.5 Thinking (Low)",
        provider := .antigravity, actualModel := "claude-sonnet-4-5-thinking",
        endpoint := agEndpoint, contextLimit := 200000, outputLimit := 64000,
        isThinking := true, thinkingBudget := some 8000 }
  | "claude-sonnet-4.5-thinking-medium" => some
      { id := "claude-sonnet-4.5-thinking-medium", displayName := "Claude Sonnet 4.5 Thinking (Medium)",
        provider := .antigravity, actualModel := "claude-sonnet-4-5-thinking",
        endpoint := agEndpoint, contextLimit := 200000, outputLimit := 64000,
        isThinking := true, thinkingBudget := some 16000 }
  | "claude-sonnet-4.5-thinking-high" => some
      { id := "claude-sonnet-4.5-thinking-high", displayName := "Claude Sonnet 4.5 Thinking (High)",
        provider := .antigravity, actualModel := "claude-sonnet-4-5-thinking",
        endpoint := agEndpoint, contextLimit := 200000, outputLimit := 64000,
        isThinking := true, thinkingBudget := some 32000 }
  | "claude-opus-4.5-thinking-low" => some
      { id := "claude-opus-4.5-thinking-low", displayName := "Claude Opus 4.5 Thinking (Low)",
        provider := .antigravity, actualModel := "claude-opus-4-5-thinking",
        endpoint := agEndpoint, contextLimit := 200000, outputLimit := 64000,
        isThinking := true, thinkingBudget := some 8000 }
  | "claude-opus-4.5-thinking-medium" => some
      { id := "claude-opus-4.5-thinking-medium", displayName := "Claude Opus 4.5 Thinking (Medium)",
        provider := .antigravity, actualModel := "claude-opus-4-5-thinking",
        endpoint := agEndpoint, contextLimit := 200000, outputLimit := 64000,
        isThinking := true, thinkingBudget := some 16000 }
  | "claude-opus-4.5-thinking-high" => some
      { id := "claude-opus-4.5-thinking-high", displayName := "Claude Opus 4.5 Thinking (High)",
        provider := .antigravity, actualModel := "claude-opus-4-5-thinking",
        endpoint := agEndpoint, contextLimit := 200000, outputLimit := 64000,
        isThinking := true, thinkingBudget := some 32000 }
  | "gemini-3-flash" => some
      { id := "gemini-3-flash", displayName := "Gemini 3 Flash",
        provider := .antigravity, actualModel := "gemini-3-flash",
        endpoint := agEndpoint, contextLimit := 1048576, outputLimit := 65536 }
  | "gemini-3-pro-low" => some
      { id := "gemini-3-pro-low", displayName := "Gemini 3 Pro (Low)",
        provider := .antigravity, actualModel := "gemini-3-pro-low",
        endpoint := agEndpoint, contextLimit := 1048576, outputLimit := 65535,
        isThinking := true, thinkingLevel := some "low" }
  | "gemini-3-pro-high" => some
      { id := "gemini-3-pro-high", displayName := "Gemini 3 Pro (High)",
        provider := .antigravity, actualModel := "gemini-3-pro-high",
        endpoint := agEndpoint, contextLimit := 1048576, outputLimit := 65535,
        isThinking := true, thinkingLevel := some "high" }
  | "gpt-5.2" => some
      { id := "gpt-5.2", displayName := "GPT-5.2",
        provider := .codex, actualModel := "gpt-5.2",
        endpoint := codexEndpoint, contextLimit := 128000, outputLimit := 32000 }
  | "gpt-5.2-thinking" => some
      { id := "gpt-5.2-thinking", displayName := "GPT-5.2 Thinking",
        provider := .codex, actualModel := "gpt-5.2-thinking",
        endpoint := codexEndpoint, contextLimit := 256000, outputLimit := 64000,
        isThinking := true }
  | "gpt-5.2-codex" => some
      { id := "gpt-5.2-codex", displayName := "GPT-5.2 Codex",
        provider := .codex, actualModel := "gpt-5.2-codex",
        endpoint := codexEndpoint, contextLimit := 256000, outputLimit := 64000 }
  | _ => Option.none

/-! ## Gateway request handling (src/index.ts: handleChatCompletion) -/

/-- The error body produced by sendError:
`{ error: { message, type: "api_error", code } }`. -/
structure ErrorBody where
  message : String
  type : String
  code : Nat
deriving DecidableEq, Repr

/-- Outcome of one client request: an error response (sendError), or a
successful 200 response (streaming or full; its payload is handled by the
parsers modelled separately). -/
inductive GatewayResult where
  | errorResponse (status : Nat) (body : ErrorBody)
  | success
deriving DecidableEq, Repr

/-- src/index.ts sendError. -/
def sendError (status : Nat) (message : String) : GatewayResult :=
  .errorResponse status { message := message, type := "api_error", code := status }

/-- The 503 message for an empty pool. -/
def noAccountsMessage (provider : Provider) : String :=
  "No " ++ provider.pname ++ " accounts available. Add one with: npm run add-account"

/-- src/index.ts handleChatCompletion, after model resolution, for the
pool of the resolved provider.  The upstream network is modelled by
`script`: the sequence of `(status, bodyText)` responses the upstream
returns to successive calls; each upstream call consumes one entry
(`none` when the script is exhausted before the handler finishes).
Result: the gateway outcome, the final rotation cursor, and the number of
upstream calls made.  The 429 branch rotates and — exactly as the code
does via `return handleChatCompletion(req, res)` — re-enters the whole
handler whenever the rotated account's id differs from the one just
tried. -/
def handleChatCompletion (provider : Provider) (accounts : List Account) :
    List (Nat × String) → Nat → Option (GatewayResult × Nat × Nat)
  | script, cursor =>
    match getNextAccount accounts cursor with
    | Option.none =>
      some (sendError 503 (noAccountsMessage provider), cursor, 0)
    | some account =>
      match script with
      | [] => Option.none
      | (status, body) :: rest =>
        if 200 ≤ status ∧ status < 300 then some (.success, cursor, 1)
        else if status = 429 then
          match getNextAccount accounts (cursor + 1) with
          | Option.none => some (sendError status body, cursor + 1, 1)
          | some newAccount =>
            if newAccount.id ≠ account.id then
              match handleChatCompletion provider accounts rest (cursor + 1) with
              | some (resFin, curFin, calls) => some (resFin, curFin, calls + 1)
              | Option.none => Option.none
            else some (sendError status body, cursor + 1, 1)
        else some (sendError status body, cursor, 1)

/-! ## Thinking configuration (src/antigravity.ts: callAntigravity) -/

/-- Whether `pat` occurs at the very start of `s`. -/
def matchesAt : List Char → List Char → Bool
  | [], _ => true
  | _ :: _, [] => false
  | p :: ps, c :: cs => p == c && matchesAt ps cs

/-- Whether `pat` occurs anywhere in `s`. -/
def hasSubstring (pat : List Char) : List Char → Bool
  | [] => pat.isEmpty
  | c :: cs => matchesAt pat (c :: cs) || hasSubstring pat cs

/-- `s.includes(pat)` (substring test), over the character lists. -/
def strContains (s pat : String) : Bool := hasSubstring pat.data s.data

/-- `model.actualModel.includes("claude")`. -/
def isClaudeModel (m : ModelConfig) : Bool := strContains m.actualModel "claude"

/-- `messages.some(m => (m.role === "assistant" && m.tool_calls?.length)
|| m.role === "tool")`. -/
def hasToolHistory (msgs : List Msg) : Bool :=
  msgs.any (fun m => (m.role == .assistant && msgHasToolCalls m) || m.role == .tool)

/-- `model.isThinking && !(isClaude && hasToolHistory)`. -/
def shouldUseThinking (m : ModelConfig) (msgs : List Msg) : Bool :=
  m.isThinking && !(isClaudeModel m && hasToolHistory msgs)

/-- Truthiness of an optional numeric field (`model.thinkingBudget`). -/
def natFieldTruthy : Option Nat → Bool
  | some n => n != 0
  | Option.none => false

/-- Truthiness of an optional string field (`model.thinkingLevel`). -/
def strFieldTruthy : Option String → Bool
  | some s => s != ""
  | Option.none => false

/-- The thinkingConfig object sent upstream: either the snake_case budget
form or the camelCase level form. -/
inductive ThinkingConfig where
  | budgetConfig (thinking_budget : Nat) (include_thoughts : Bool)
  | levelConfig (thinkingLevel : String) (includeThoughts : Bool)
deriving DecidableEq, Repr

/-- The slice of generationConfig the claims are about. -/
structure GenerationConfig where
  maxOutputTokens : Nat
  thinkingConfig : Option ThinkingConfig := Option.none
deriving DecidableEq, Repr

/-- The generationConfig construction inside callAntigravity:
`maxOutputTokens := options?.maxTokens ?? model.outputLimit`, then, when
thinking is in use, either the budget branch (raising maxOutputTokens to
128000 when it is not strictly above the budget) or the level branch. -/
def buildGenerationConfig (model : ModelConfig) (msgs : List Msg) (maxTokens : Option Nat) :
    GenerationConfig :=
  let base : GenerationConfig := { maxOutputTokens := maxTokens.getD model.outputLimit }
  if shouldUseThinking model msgs then
    if natFieldTruthy model.thinkingBudget then
      let b := model.thinkingBudget.getD 0
      { maxOutputTokens := if base.maxOutputTokens ≤ b then 128000 else base.maxOutputTokens,
        thinkingConfig := some (.budgetConfig b true) }
    else if strFieldTruthy model.thinkingLevel then
      { maxOutputTokens := base.maxOutputTokens,
        thinkingConfig := some (.levelConfig (model.thinkingLevel.getD "") true) }
    else base
  else base

/-! ## Message conversion (src/antigravity.ts: convertMessages) -/

/-- Role of one Antigravity content turn. -/
inductive AGRole where
  | user
  | model
deriving DecidableEq, Repr

/-- One Antigravity part, as built by convertMessages.  Function-call
arguments and function-response payloads are carried opaquely (the
`JSON.parse`-with-fallback steps do not affect which parts are emitted
where, which is what the claims are about). -/
inductive AGPart where
  | textPart (text : String)
  | inlineDataPart (mimeType : String) (data : String)
  | functionCallPart (name : String) (argsRaw : String) (id : String)
  | functionResponsePart (name : String) (id : String) (response : MsgContent)
deriving DecidableEq, Repr

/-- One Antigravity content turn. -/
structure AGContent where
  role : AGRole
  parts : List AGPart
deriving DecidableEq, Repr

/-- `msg.name || "unknown"`. -/
def nameOrUnknown : Option String → String
  | some n => if n != "" then n else "unknown"
  | Option.none => "unknown"

/-- The toolResponses map of convertMessages, as a lookup: it is filled by
iterating over every `tool` message with a truthy `tool_call_id` and
overwriting on duplicate ids, so a lookup returns the payload of the last
matching tool message. -/
def toolResponseFor (msgs : List Msg) (id : String) : Option (String × MsgContent) :=
  msgs.foldl (fun acc m =>
    if m.role == .tool then
      match m.tool_call_id with
      | some tid =>
        if tid != "" && tid == id then some (nameOrUnknown m.name, m.content) else acc
      | Option.none => acc
    else acc) Option.none

/-- The content-handling block of the conversion loop: a truthy string
becomes one text part; an array contributes its truthy text parts and its
well-formed data-URL images, in order; null contributes nothing. -/
def contentParts : MsgContent → List AGPart
  | .str s => if s != "" then [.textPart s] else []
  | .parts items =>
    items.foldr (fun it acc =>
      (match it with
       | .textItem s => if s != "" then [AGPart.textPart s] else []
       | .imageDataItem m d => [AGPart.inlineDataPart m d]
       | .otherItem => []) ++ acc) []
  | .nullContent => []

/-- The tool-call block of the conversion loop: one functionCall part per
entry of a truthy `tool_calls`. -/
def toolCallParts (m : Msg) : List AGPart :=
  if msgHasToolCalls m then
    (m.tool_calls.getD []).map (fun tc => .functionCallPart tc.name tc.argumentsRaw tc.id)
  else []

/-- The tool-response collection of the conversion loop: for each tool
call of the message, the buffered functionResponse part if the
toolResponses map has a matching entry. -/
def pendingFor (msgs : List Msg) (m : Msg) : List AGPart :=
  if msgHasToolCalls m then
    (m.tool_calls.getD []).foldr (fun tc acc =>
      (match toolResponseFor msgs tc.id with
       | some (n, c) => [AGPart.functionResponsePart n tc.id c]
       | Option.none => []) ++ acc) []
  else []

/-- The main `for (const msg of messages)` loop of convertMessages,
threading the pendingToolResponses buffer; `msgs` is the full message
list (from which the toolResponses map was pre-collected), the second
argument is the remaining messages to walk.  Emission order per message:
the buffered-responses flush before a user turn, then the message's own
turn (if it produced any parts), then the flush after an assistant turn
with tool calls; whatever is still buffered when the walk ends is flushed
as one trailing user turn. -/
def convertLoop (msgs : List Msg) : List Msg → List AGPart → List AGContent
  | [], pending => if pending.isEmpty then [] else [{ role := .user, parts := pending }]
  | m :: rest, pending =>
    if m.role == .tool then convertLoop msgs rest pending
    else if m.role == .system then convertLoop msgs rest pending
    else
      let isAssistant := m.role == .assistant
      let beforeFlush : List AGContent :=
        if !isAssistant && !pending.isEmpty then [{ role := .user, parts := pending }] else []
      let pending1 := if !isAssistant && !pending.isEmpty then [] else pending
      let parts := contentParts m.content ++ toolCallParts m
      let pending2 := pending1 ++ pendingFor msgs m
      let turn : List AGContent :=
        if !parts.isEmpty then
          [{ role := if isAssistant then AGRole.model else AGRole.user, parts := parts }]
        else []
      let flushAfter := isAssistant && msgHasToolCalls m && !pending2.isEmpty
      let afterFlush : List AGContent :=
        if flushAfter then [{ role := AGRole.user, parts := pending2 }] else []
      let pending3 := if flushAfter then [] else pending2
      beforeFlush ++ turn ++ afterFlush ++ convertLoop msgs rest pending3

/-- Text extraction for a system message: a string content is used as-is,
an array joins its text parts with newlines, null yields "". -/
def extractSystemText : MsgContent → String
  | .str s => s
  | .parts items =>
    String.intercalate "\n" (items.filterMap (fun it =>
      match it with
      | .textItem s => some s
      | _ => Option.none))
  | .nullContent => ""

/-- The systemInstruction accumulation of convertMessages: system
messages concatenate in order with blank-line separators. -/
def systemText (msgs : List Msg) : Option String :=
  msgs.foldl (fun acc m =>
    if m.role == .system then
      match acc with
      | some s => some (s ++ "\n\n" ++ extractSystemText m.content)
      | Option.none => some (extractSystemText m.content)
    else acc) Option.none

/-- Result of convertMessages. -/
structure AGConvertResult where
  contents : List AGContent
  systemInstruction : Option String
deriving DecidableEq, Repr

/-- src/antigravity.ts convertMessages. -/
def convertMessages (msgs : List Msg) : AGConvertResult :=
  { contents := convertLoop msgs msgs [], systemInstruction := systemText msgs }

/-- Canonical-shape hypothesis: only assistant messages carry (non-empty)
tool_calls.  This is how every OpenAI-style client produces messages; the
conversion loop collects buffered responses for any role, but only
flushes them eagerly after assistant turns. -/
def toolCallsOnlyOnAssistant (msgs : List Msg) : Prop :=
  ∀ m ∈ msgs, msgHasToolCalls m = true → m.role = .assistant

/-- The per-message output of convertMessages under the canonical-shape
hypothesis: tool and system messages contribute no turn; a user or
assistant message contributes its own turn when it has parts; an
assistant message with tool calls additionally contributes, immediately
after its own turn, one user turn holding the function responses of
exactly its matched call ids, in call order. -/
def msgContribution (msgs : List Msg) (m : Msg) : List AGContent :=
  if m.role == .tool ∨ m.role == .system then []
  else
    let parts := contentParts m.content ++ toolCallParts m
    let turn : List AGContent :=
      if !parts.isEmpty then
        [{ role := if m.role == .assistant then AGRole.model else AGRole.user, parts := parts }]
      else []
    let flush : List AGContent :=
      if m.role == .assistant && msgHasToolCalls m && !(pendingFor msgs m).isEmpty then
        [{ role := AGRole.user, parts := pendingFor msgs m }]
      else []
    turn ++ flush

/-- Number of functionResponse parts across all turns. -/
def countFunctionResponses (cs : List AGContent) : Nat :=
  cs.foldl (fun acc c =>
    acc + c.parts.foldl (fun a p =>
      match p with
      | .functionResponsePart _ _ _ => a + 1
      | _ => a) 0) 0

/-- A tool result whose id matches no assistant tool call. -/
def orphanToolMsg : Msg :=
  { role := .tool, content := .str "result-payload",
    name := some "get_weather", tool_call_id := some "call-x" }

/-- A plain user message, used by witnesses. -/
def userHello : Msg := { role := .user, content := .str "Hello!" }

/-- A short history containing an assistant tool call and its tool
result, used by witnesses. -/
def toolHistoryMsgs : List Msg :=
  [{ role := .assistant, content := .nullContent,
     tool_calls := some [{ id := "call-1", name := "get_weather", argumentsRaw := "\x7b\x7d" }] },
   { role := .tool, content := .str "42", tool_call_id := some "call-1",
     name := some "get_weather" }]

/-- The claude-sonnet-4.5-thinking-low registry entry, named for use in
witnesses. -/
def sonnetThinkingLowCfg : ModelConfig :=
  { id := "claude-sonnet-4.5-thinking-low", displayName := "Claude Sonnet 4.5 Thinking (Low)",
    provider := .antigravity, actualModel := "claude-sonnet-4-5-thinking",
    endpoint := agEndpoint, contextLimit := 200000, outputLimit := 64000,
    isThinking := true, thinkingBudget := some 8000 }

/-! ## Responses (Codex) stream parsing (src/codex.ts) -/

/-- The payload of one parsed `data:` event, after shape dispatch:
`outputTexts` are the texts of `output[].content[]` entries with
`type === "output_text"`, in order; `fallbackParts` is
`message.content.parts` when present. -/
structure CodexEventData where
  outputTexts : List (List Char)
  fallbackParts : Option (List (List Char))
deriving DecidableEq, Repr

/-- One `data:` line of the upstream SSE stream.  Lines without the
`data: ` marker never reach the parser and are not modelled. -/
inductive CodexEvent where
  | done
  | dataEvent (e : CodexEventData)
  | malformed
deriving DecidableEq, Repr

/-- The inner `output_text` loop step of parseCodexStream: for a truthy
text, `newContent = c.text.slice(lastContent.length)`; when non-empty it
becomes the candidate delta and `lastContent` advances to the full text.
The accumulator is (candidate delta so far, lastContent). -/
def stepOutputs (acc : Option (List Char) × List Char) (t : List Char) :
    Option (List Char) × List Char :=
  if !t.isEmpty then
    let nc := t.drop acc.2.length
    if !nc.isEmpty then (some nc, t) else acc
  else acc

/-- Processing of one parsed event in parseCodexStream: the Responses-API
shape first, then the conversation-format fallback (which fires only when
the first shape produced no delta and `parts[0]` is truthy). -/
def processEvent (last : List Char) (e : CodexEventData) : Option (List Char) × List Char :=
  match e.outputTexts.foldl stepOutputs (Option.none, last) with
  | (some c, last2) => (some c, last2)
  | (Option.none, last2) =>
    match e.fallbackParts with
    | some ps =>
      let t := ps.headD []
      if !t.isEmpty then
        let nc := t.drop last2.length
        if !nc.isEmpty then (some nc, t) else (Option.none, last2)
      else (Option.none, last2)
    | Option.none => (Option.none, last2)

/-- One OpenAI-style chunk yielded by parseCodexStream: either a content
delta or the final chunk (empty delta object, finish_reason "stop"),
which carries no content field. -/
inductive CodexChunk where
  | contentChunk (content : List Char)
  | finishChunk
deriving DecidableEq, Repr

/-- src/codex.ts parseCodexStream over the event sequence: a `[DONE]`
line yields the finish chunk and ends the generator; a data event yields
one content chunk when the diffing produced a non-empty delta; malformed
lines are skipped. -/
def parseCodexStream : List CodexEvent → List Char → List CodexChunk
  | [], _ => []
  | ev :: rest, last =>
    match ev with
    | .done => [.finishChunk]
    | .malformed => parseCodexStream rest last
    | .dataEvent e =>
      match processEvent last e with
      | (some c, last2) => .contentChunk c :: parseCodexStream rest last2
      | (Option.none, last2) => parseCodexStream rest last2

/-- Concatenation of all yielded content deltas. -/
def codexContentJoin (chunks : List CodexChunk) : List Char :=
  chunks.foldr (fun ch acc =>
    (match ch with
     | .contentChunk c => c
     | .finishChunk => []) ++ acc) []

/-- A data event carrying one accumulated output_text, the typical
Responses-API stream shape. -/
def mkTextEvent (t : List Char) : CodexEvent :=
  .dataEvent { outputTexts := [t], fallbackParts := Option.none }

/-- The prefix-extension hypothesis of claim C7: each successive
accumulated text extends the previous one (first element extends the
given start). -/
def chainExt : List Char → List (List Char) → Prop
  | _, [] => True
  | prev, t :: rest => (∃ u, t = prev ++ u) ∧ chainExt t rest

/-! ## Responses (Codex) full-response parsing (src/codex.ts:
parseCodexResponse) -/

/-- The inner `output_text` loop step of parseCodexResponse:
`if (c.type === "output_text" && c.text) content = c.text` — a truthy
text overwrites the accumulator. -/
def overwriteStep (acc t : List Char) : List Char :=
  if !t.isEmpty then t else acc

/-- The `output` loop of parseCodexResponse over one line. -/
def overwriteFold (content : List Char) (ts : List (List Char)) : List Char :=
  ts.foldl overwriteStep content

/-- The `content` folding of parseCodexResponse over one `data:` line:
output_text entries overwrite the accumulator when truthy; the
conversation-format fallback fires only while the accumulator is still
empty, taking `parts[0] || ""`. -/
def lineContent (content : List Char) : CodexEvent → List Char
  | .done => content
  | .malformed => content
  | .dataEvent e =>
    match e.fallbackParts with
    | some ps =>
      if (overwriteFold content e.outputTexts).isEmpty then ps.headD []
      else overwriteFold content e.outputTexts
    | Option.none => overwriteFold content e.outputTexts

/-- The slice of the non-streaming chat.completion the claims are about:
`message.content` (null when no text was parsed), `message.tool_calls`
(never set by this parser) and `finish_reason`. -/
structure CodexAPIResponse where
  content : Option (List Char)
  tool_calls : Option (List ToolCall)
  finish_reason : String
deriving DecidableEq, Repr

/-- src/codex.ts parseCodexResponse: fold every `data:` line, then build
the single choice with `content: content || null` and a constant
`finish_reason: "stop"`. -/
def parseCodexResponse (lines : List CodexEvent) : CodexAPIResponse :=
  let c := lines.foldl lineContent []
  { content := if c.isEmpty then Option.none else some c,
    tool_calls := Option.none,
    finish_reason := "stop" }

/-- Truth of "no output_text (or fallback parts) text could be parsed
from this line". -/
def eventHasNoText : CodexEvent → Bool
  | .done => true
  | .malformed => true
  | .dataEvent e =>
    e.outputTexts.all (fun t => t.isEmpty) &&
      (match e.fallbackParts with
       | some ps => (ps.headD []).isEmpty
       | Option.none => true)

/-! ## Antigravity stream normalization (src/index.ts:
streamAntigravityResponse) -/

/-- One part of a streamed Antigravity candidate: optional text with a
thought flag, and an optional function call. -/
structure AGStreamPart where
  text : Option String := Option.none
  thought : Bool := false
  functionCall : Option (String × String) := Option.none
deriving DecidableEq, Repr

/-- One chunk written by streamAntigravityResponse: a content delta or a
tool-call delta (which carries no content field). -/
inductive AGChunk where
  | contentChunk (content : String)
  | toolCallChunk (name : String) (argsRaw : String)
deriving DecidableEq, Repr

/-- Per-part chunk emission: a content chunk for truthy non-thought text,
and a tool-call chunk for a function call, in that order. -/
def agPartChunks (p : AGStreamPart) : List AGChunk :=
  (match p.text with
   | some t => if t != "" && !p.thought then [AGChunk.contentChunk t] else []
   | Option.none => []) ++
  (match p.functionCall with
   | some (n, a) => [AGChunk.toolCallChunk n a]
   | Option.none => [])

/-- src/index.ts streamAntigravityResponse: each parsed event contributes
the chunks of its parts in arrival order (malformed events are skipped
and are not modelled; the terminal `[DONE]` marker carries no delta). -/
def streamAntigravityResponse (events : List (List AGStreamPart)) : List AGChunk :=
  events.foldr (fun parts acc => (parts.foldr (fun p a => agPartChunks p ++ a) []) ++ acc) []

/-- Non-emptiness of the content field of a Codex chunk, when present. -/
def codexChunkContentOk : CodexChunk → Bool
  | .contentChunk c => !c.isEmpty
  | .finishChunk => true

/-- Non-emptiness of the content field of an Antigravity chunk, when
present. -/
def agChunkContentOk : AGChunk → Bool
  | .contentChunk c => c != ""
  | .toolCallChunk _ _ => true

/-! ### Idempotence of cleanSchema (claim C3) -/

theorem truthy_cleanSchema (j : Json) : (cleanSchema j).truthy = j.truthy := by
  cases j <;> simp [cleanSchema, Json.truthy]

theorem isNull_cleanSchema_of_container (j : Json) (h : j.isContainer = true) :
    (cleanSchema j).isNull = false := by
  cases j <;> simp_all [cleanSchema, Json.isContainer, Json.isNull]

theorem cleanSchema_of_not_container (j : Json) (h : (j.truthy && j.isContainer) = false) :
    cleanSchema j = j := by
  cases j <;> simp_all [cleanSchema, Json.truthy, Json.isContainer]

theorem cleanObj_of_cleaned (r : List (String × Json)) (h : CleanedEntries r) :
    cleanObj r = r := by
  induction r with
  | nil => rfl
  | cons p rest ih =>
    obtain ⟨k, v⟩ := p
    have hp := h (k, v) (List.mem_cons_self _ _)
    have hrest : CleanedEntries rest := fun q hq => h q (List.mem_cons_of_mem _ hq)
    by_cases hc : (v.truthy && v.isContainer) = true
    · have hcont : v.isContainer = true := ((Bool.and_eq_true _ _).mp hc).2
      have hnn : (cleanSchema v).isNull = false := isNull_cleanSchema_of_container v hcont
      have hvn : v.isNull = false := by cases v <;> simp_all [Json.isContainer, Json.isNull]
      simp [cleanObj, hp.1, hc, hnn, hp.2, hvn, ih hrest]
    · simp [cleanObj, hp.1, hc, ih hrest]

theorem mem_setKey {r : List (String × Json)} {key : String} {val : Json} {p : String × Json}
    (h : p ∈ setKey r key val) : p ∈ r ∨ p = (key, val) := by
  induction r with
  | nil => simp [setKey] at h; simp [h]
  | cons q rest ih =>
    obtain ⟨k, v⟩ := q
    by_cases hk : k = key
    · simp [setKey, hk] at h
      rcases h with h | h
      · right; simp [h]
      · left; exact List.mem_cons_of_mem _ h
    · simp [setKey, hk] at h
      rcases h with h | h
      · left; simp [h]
      · rcases ih h with h2 | h2
        · left; exact List.mem_cons_of_mem _ h2
        · right; exact h2

theorem getKey_setKey_self (r : List (String × Json)) (key : String) (val : Json) :
    getKey (setKey r key val) key = some val := by
  induction r with
  | nil => simp [setKey, getKey]
  | cons q rest ih =>
    obtain ⟨k, v⟩ := q
    by_cases hk : k = key
    · simp [setKey, hk, getKey]
    · simp [setKey, hk, getKey, ih]

theorem cleanedEntries_fixType (r : List (String × Json)) (h : CleanedEntries r) :
    CleanedEntries (fixType r) := by
  unfold fixType
  split
  · intro p hp
    rcases mem_setKey hp with h2 | h2
    · exact h p h2
    · subst h2
      exact ⟨by decide, rfl⟩
  · exact h

theorem fixType_fixType (r : List (String × Json)) : fixType (fixType r) = fixType r := by
  by_cases h : (optTruthy (getKey r "properties") && !optTruthy (getKey r "type")) = true
  · have h1 : fixType r = setKey r "type" (.str "object") := by simp [fixType, h]
    rw [h1]
    simp [fixType, getKey_setKey_self, optTruthy, Json.truthy]
  · have h1 : fixType r = r := by simp [fixType] at h ⊢; intro hp; simp_all
    rw [h1]
    simp [fixType] at h ⊢
    intro hp
    simp_all

mutual

theorem cleanSchema_idem : (j : Json) → cleanSchema (cleanSchema j) = cleanSchema j
  | .null => rfl
  | .bool _ => rfl
  | .num _ => rfl
  | .str _ => rfl
  | .arr items => by
      simp [cleanSchema, cleanArr_idem items]
  | .obj entries => by
      have h2 : CleanedEntries (fixType (cleanObj entries)) :=
        cleanedEntries_fixType _ (cleanObj_cleaned entries)
      simp [cleanSchema, cleanObj_of_cleaned _ h2, fixType_fixType]

theorem cleanArr_idem : (xs : List Json) → cleanArr (cleanArr xs) = cleanArr xs
  | [] => rfl
  | x :: xs => by
      have hx := cleanSchema_idem x
      have hxs := cleanArr_idem xs
      by_cases h : (cleanSchema x).truthy = true
      · simp [cleanArr, h, hx, hxs]
      · simp [cleanArr, h, hxs]

theorem cleanObj_cleaned : (es : List (String × Json)) → CleanedEntries (cleanObj es)
  | [] => by intro p hp; simp [cleanObj] at hp
  | (k, v) :: rest => by
      have hrest := cleanObj_cleaned rest
      by_cases hb : bannedKey k = true
      · intro p hp
        simp only [cleanObj, hb, if_true] at hp
        exact hrest p hp
      · by_cases hc : (v.truthy && v.isContainer) = true
        · have hv := cleanSchema_idem v
          have hcont : v.isContainer = true := ((Bool.and_eq_true _ _).mp hc).2
          have hnn : (cleanSchema v).isNull = false := isNull_cleanSchema_of_container v hcont
          intro p hp
          simp only [cleanObj, hb, hc, hnn, if_false, if_true, Bool.false_eq_true] at hp
          rcases List.mem_cons.mp hp with h2 | h2
          · subst h2; exact ⟨by simpa using hb, hv⟩
          · exact hrest p h2
        · intro p hp
          simp only [cleanObj, hb, hc, if_false, Bool.false_eq_true] at hp
          rcases List.mem_cons.mp hp with h2 | h2
          · subst h2
            exact ⟨by simpa using hb, cleanSchema_of_not_container v (by simpa using hc)⟩
          · exact hrest p h2

end

/-- C3: tool-schema sanitization for the Generative-Content adapter is
idempotent: for every JSON-Schema input `s`,
`cleanSchema (cleanSchema s) = cleanSchema s`; sanitizing
already-sanitized output is a no-op. -/
theorem cleanSchema_idempotent (s : Json) : cleanSchema (cleanSchema s) = cleanSchema s :=
  cleanSchema_idem s

/-! ### Round-robin rotation (claim C2) -/

/-- C2: for every pool with `N ≥ 1` accounts and any starting cursor `c`,
advancing the cursor exactly `N` times (rotateAccount increments it by one
each call) returns to the account current before the first call; and the
indices visited by the `N` successive current accounts
(`(c + 1 + k) % N` for `k < N`) hit every position of the pool exactly
once, consecutively in cyclic list order (each visit is the successor of
the previous one modulo `N`): strict round-robin, no weighting. -/
theorem rotation_full_cycle (accounts : List Account) (c : Nat) (h : accounts ≠ []) :
    getNextAccount accounts (c + accounts.length) = getNextAccount accounts c
    ∧ (∀ j < accounts.length,
        ∃! k, k < accounts.length ∧ (c + 1 + k) % accounts.length = j)
    ∧ (∀ k, (c + 1 + (k + 1)) % accounts.length
        = ((c + 1 + k) % accounts.length + 1) % accounts.length) := by
  have hlen : accounts.length ≠ 0 := fun h0 => h (List.length_eq_zero.mp h0)
  have hpos : 0 < accounts.length := Nat.pos_of_ne_zero hlen
  set N := accounts.length with hN
  have key : ∀ j, j < N → (c + 1 + (j + N - (c + 1) % N) % N) % N = j := by
    intro j hj
    have hrlt : (c + 1) % N < N := Nat.mod_lt _ hpos
    rw [Nat.add_mod_mod, ← Nat.mod_add_mod (c + 1) N (j + N - (c + 1) % N)]
    have h3 : (c + 1) % N + (j + N - (c + 1) % N) = j + N := by omega
    rw [h3, Nat.add_mod_right, Nat.mod_eq_of_lt hj]
  refine ⟨?_, ?_, ?_⟩
  · simp only [getNextAccount]
    split
    · rfl
    · have hmod : (c + N) % N = c % N := Nat.add_mod_right c N
      simp only [hN, hmod]
  · intro j hj
    refine ⟨(j + N - (c + 1) % N) % N, ⟨Nat.mod_lt _ hpos, key j hj⟩, ?_⟩
    intro y hy
    obtain ⟨hylt, hyeq⟩ := hy
    have hmod : (c + 1 + y) % N = (c + 1 + (j + N - (c + 1) % N) % N) % N := by
      rw [hyeq, key j hj]
    have hme : Nat.ModEq N y ((j + N - (c + 1) % N) % N) :=
      Nat.ModEq.add_left_cancel (Nat.ModEq.refl (c + 1)) hmod
    exact hme.eq_of_lt_of_lt hylt (Nat.mod_lt _ hpos)
  · intro k
    have hstep : c + 1 + (k + 1) = (c + 1 + k) + 1 := by omega
    rw [hstep, ← Nat.mod_add_mod (c + 1 + k) N 1]

/-- Witness for `rotation_full_cycle` at the two-account pool
`[acctA, acctB]` with starting cursor 0. -/
theorem rotation_full_cycle_witness :
    getNextAccount [acctA, acctB] (0 + [acctA, acctB].length) = getNextAccount [acctA, acctB] 0
    ∧ (∀ j < [acctA, acctB].length,
        ∃! k, k < [acctA, acctB].length ∧ (0 + 1 + k) % [acctA, acctB].length = j)
    ∧ (∀ k, (0 + 1 + (k + 1)) % [acctA, acctB].length
        = ((0 + 1 + k) % [acctA, acctB].length + 1) % [acctA, acctB].length) :=
  rotation_full_cycle [acctA, acctB] 0 (by simp)

/-! ### Rate-limit rotation and retry (claim C1) -/

/-- C1 counterexample: the retry-on-429 transition is not taken at most
once.  With the two-account pool `[acctA, acctB]` at cursor 0 and
upstream responses 429, 429, 200, the claim predicts the second 429 is
surfaced to the client after the single allowed retry (at most two
upstream calls); the handler instead rotates again, makes a third
upstream call, returns success and leaves the cursor advanced by two. -/
theorem retry_not_bounded_counterexample :
    handleChatCompletion Provider.antigravity [acctA, acctB]
      [(429, "rate limited"), (429, "rate limited"), (200, "ok")] 0
      = some (.success, 2, 3)
    ∧ ¬(3 ≤ 2) := by
  exact ⟨rfl, by decide⟩

/-- C1 (amended): the retry-on-429 transition is taken whenever rotation
yields an account whose id differs from the one just tried — consecutive
429s keep rotating and retrying instead of surfacing the second 429.
With a single account, a 429 is surfaced without any retry and the cursor
still advances by one.  In the two-account scenario (429 on the first
account, 200 on the second) the client receives success after exactly one
transparent retry (two upstream calls) and the cursor has advanced by
exactly one. -/
theorem retry_rotation_amended (c : Nat) (rest : List (Nat × String)) (s1 s2 : String) :
    handleChatCompletion Provider.antigravity [acctA, acctB] [(429, s1), (200, s2)] c
      = some (.success, c + 1, 2)
    ∧ handleChatCompletion Provider.antigravity [acctA] ((429, s1) :: rest) c
      = some (sendError 429 s1, c + 1, 1) := by
  constructor
  · rcases Nat.mod_two_eq_zero_or_one c with h | h
    · have h1 : (c + 1) % 2 = 1 := by omega
      simp [handleChatCompletion, getNextAccount, h, h1, acctA, acctB]
    · have h1 : (c + 1) % 2 = 0 := by omega
      simp [handleChatCompletion, getNextAccount, h, h1, acctA, acctB]
  · simp [handleChatCompletion, getNextAccount, Nat.mod_one]

/-! ### Empty pool yields a defined 503 (claim C9) -/

/-- C9: for every request whose model resolves to a provider whose
account pool is empty, the gateway returns the 503 error response with
body `{error: {message, type: "api_error", code: 503}}` and makes zero
upstream calls, whatever the upstream would have answered: the empty pool
is a defined outcome, not an exception from deeper in the stack. -/
theorem empty_pool_503 (modelId : String) (mc : ModelConfig)
    (script : List (Nat × String)) (cursor : Nat)
    (_hlookup : MODELS modelId = some mc) :
    handleChatCompletion mc.provider [] script cursor
      = some (.errorResponse 503
          { message := noAccountsMessage mc.provider, type := "api_error", code := 503 },
        cursor, 0) := by
  simp [handleChatCompletion, getNextAccount, sendError]

/-- Witness for `empty_pool_503` at the model "claude-sonnet-4.5". -/
theorem empty_pool_503_witness :
    handleChatCompletion Provider.antigravity [] [] 0
      = some (.errorResponse 503
          { message := noAccountsMessage Provider.antigravity, type := "api_error", code := 503 },
        0, 0) :=
  empty_pool_503 "claude-sonnet-4.5"
    { id := "claude-sonnet-4.5", displayName := "Claude Sonnet 4.5",
      provider := .antigravity, actualModel := "claude-sonnet-4-5",
      endpoint := agEndpoint, contextLimit := 200000, outputLimit := 64000 }
    [] 0 rfl

/-! ### Thinking suppression for Claude with tool history (claim C4) -/

/-- C4: for a Claude-family thinking model, the upstream request contains
no thinkingConfig whenever the message history has any tool message or
any assistant message with a non-empty tool_calls list, regardless of the
model's declared budget or level; otherwise (no tool history), for a
thinking model declaring a budget or a level, thinkingConfig is
included. -/
theorem claude_thinking_tool_history (m : ModelConfig) (msgs : List Msg) (maxTokens : Option Nat)
    (hClaude : isClaudeModel m = true) (hThinking : m.isThinking = true) :
    (hasToolHistory msgs = true →
      (buildGenerationConfig m msgs maxTokens).thinkingConfig = Option.none)
    ∧ ((natFieldTruthy m.thinkingBudget = true ∨ strFieldTruthy m.thinkingLevel = true) →
        hasToolHistory msgs = false →
        (buildGenerationConfig m msgs maxTokens).thinkingConfig.isSome = true) := by
  constructor
  · intro hHist
    have hsu : shouldUseThinking m msgs = false := by
      simp [shouldUseThinking, hClaude, hHist]
    simp [buildGenerationConfig, hsu]
  · intro hDecl hHist
    have hsu : shouldUseThinking m msgs = true := by
      simp [shouldUseThinking, hClaude, hThinking, hHist]
    rcases hDecl with hb | hl
    · simp [buildGenerationConfig, hsu, hb]
    · by_cases hb : natFieldTruthy m.thinkingBudget = true
      · simp [buildGenerationConfig, hsu, hb]
      · simp [buildGenerationConfig, hsu, hb, hl]

/-- Witness for `claude_thinking_tool_history` at the
claude-sonnet-4.5-thinking-low registry entry: thinkingConfig is dropped
for a tool-call history and included for a plain user turn. -/
theorem claude_thinking_tool_history_witness :
    (buildGenerationConfig sonnetThinkingLowCfg toolHistoryMsgs Option.none).thinkingConfig
      = Option.none
    ∧ (buildGenerationConfig sonnetThinkingLowCfg [userHello] Option.none).thinkingConfig.isSome
      = true :=
  ⟨(claude_thinking_tool_history sonnetThinkingLowCfg toolHistoryMsgs Option.none
      (by decide) (by decide)).1 (by decide),
   (claude_thinking_tool_history sonnetThinkingLowCfg [userHello] Option.none
      (by decide) (by decide)).2 (Or.inl (by decide)) (by decide)⟩

/-! ### Thinking-budget output ceiling (claim C6) -/

/-- C6: when thinking is enabled for a model with a fixed (non-zero)
thinking token budget, the effective max-output-tokens (`max_tokens`, or
the model's output limit when absent) is raised to the 128000 ceiling
when it is not strictly greater than the budget, and left unchanged when
it is strictly greater. -/
theorem thinking_budget_ceiling (m : ModelConfig) (msgs : List Msg) (maxTokens : Option Nat)
    (b : Nat) (hb : m.thinkingBudget = some b) (hbne : b ≠ 0)
    (hUse : shouldUseThinking m msgs = true) :
    (maxTokens.getD m.outputLimit ≤ b →
      (buildGenerationConfig m msgs maxTokens).maxOutputTokens = 128000)
    ∧ (b < maxTokens.getD m.outputLimit →
      (buildGenerationConfig m msgs maxTokens).maxOutputTokens = maxTokens.getD m.outputLimit) := by
  have hbt : natFieldTruthy (some b) = true := by simp [natFieldTruthy, hbne]
  constructor
  · intro hle
    simp [buildGenerationConfig, hUse, hb, hbt, hle]
  · intro hgt
    simp [buildGenerationConfig, hUse, hb, hbt, Nat.not_le.mpr hgt]

/-- Witness for `thinking_budget_ceiling` at the
claude-sonnet-4.5-thinking-low entry (budget 8000): a requested 1000
max_tokens is raised to 128000, a requested 30000 is kept. -/
theorem thinking_budget_ceiling_witness :
    (buildGenerationConfig sonnetThinkingLowCfg [userHello] (some 1000)).maxOutputTokens = 128000
    ∧ (buildGenerationConfig sonnetThinkingLowCfg [userHello] (some 30000)).maxOutputTokens
      = 30000 :=
  ⟨(thinking_budget_ceiling sonnetThinkingLowCfg [userHello] (some 1000) 8000
      (by decide) (by decide) (by decide)).1 (by decide),
   (thinking_budget_ceiling sonnetThinkingLowCfg [userHello] (some 30000) 8000
      (by decide) (by decide) (by decide)).2 (by decide)⟩

/-! ### Tool-result buffering in convertMessages (claim C5) -/

theorem convertLoop_eq_flatMap (all : List Msg) :
    ∀ msgs : List Msg, (∀ m ∈ msgs, msgHasToolCalls m = true → m.role = .assistant) →
      convertLoop all msgs [] = msgs.flatMap (msgContribution all) := by
  intro msgs
  induction msgs with
  | nil => intro _; rfl
  | cons m rest ih =>
    intro h
    have hm := h m (List.mem_cons_self _ _)
    have hrest : ∀ x ∈ rest, msgHasToolCalls x = true → x.role = .assistant :=
      fun x hx => h x (List.mem_cons_of_mem _ hx)
    have ihr := ih hrest
    rw [List.flatMap_cons]
    cases hrole : m.role
    case system =>
      simp [convertLoop, msgContribution, hrole, ihr]
    case tool =>
      simp [convertLoop, msgContribution, hrole, ihr]
    case user =>
      have hcalls : msgHasToolCalls m = false := by
        cases hc : msgHasToolCalls m
        · rfl
        · have := hm hc
          rw [hrole] at this
          cases this
      have hpf : pendingFor all m = [] := by simp [pendingFor, hcalls]
      simp [convertLoop, msgContribution, hrole, hcalls, hpf, ihr]
    case assistant =>
      by_cases hc : msgHasToolCalls m = true
      · by_cases hp : (pendingFor all m).isEmpty = true
        · have hpe : pendingFor all m = [] := List.isEmpty_iff.mp hp
          simp [convertLoop, msgContribution, hrole, hc, hp, hpe, ihr]
        · simp [convertLoop, msgContribution, hrole, hc, hp, ihr]
      · have hc2 : msgHasToolCalls m = false := by
          cases hcc : msgHasToolCalls m
          · rfl
          · exact absurd hcc hc
        have hpf : pendingFor all m = [] := by simp [pendingFor, hc2]
        simp [convertLoop, msgContribution, hrole, hc2, hpf, ihr]

/-- C5 counterexample: a tool result whose `tool_call_id` matches no
assistant tool call is dropped, not flushed.  The claim predicts that for
the input `[orphanToolMsg]` the still-buffered tool result is emitted as
one trailing user-role turn (so at least one functionResponse part in the
output); the conversion instead produces no turn at all, because tool
results enter the buffer only while an assistant message with a matching
call id is being processed. -/
theorem tool_result_dropped_counterexample :
    (convertMessages [orphanToolMsg]).contents = []
    ∧ countFunctionResponses (convertMessages [orphanToolMsg]).contents = 0 :=
  ⟨rfl, rfl⟩

/-- C5 (amended): for canonical message lists (tool calls only on
assistant messages), conversion is message-local: each message
contributes its own turn (when it yields any part), and an assistant
message with tool calls additionally contributes — immediately after its
own turn — one user turn holding the function responses of exactly its
matched call ids, in call order.  Hence every tool result matching some
assistant tool call is emitted immediately after each such assistant
turn, and a tool result matching no assistant tool call is dropped: the
before-next-user-turn and end-of-list flush branches never fire. -/
theorem tool_results_placement_amended (msgs : List Msg)
    (h : toolCallsOnlyOnAssistant msgs) :
    (convertMessages msgs).contents = msgs.flatMap (msgContribution msgs) :=
  convertLoop_eq_flatMap msgs msgs h

/-- Witness for `tool_results_placement_amended` at a four-message
conversation with one tool call and its matching result. -/
theorem tool_results_placement_amended_witness :
    (convertMessages (userHello :: toolHistoryMsgs)).contents
      = (userHello :: toolHistoryMsgs).flatMap
          (msgContribution (userHello :: toolHistoryMsgs)) :=
  tool_results_placement_amended (userHello :: toolHistoryMsgs)
    (by unfold toolCallsOnlyOnAssistant; decide)

/-! ### Codex streaming forward-diff (claim C7) -/

theorem chainExt_join (ts : List (List Char)) :
    ∀ last, chainExt last ts →
      last ++ codexContentJoin (parseCodexStream (ts.map mkTextEvent) last) = ts.getLastD last := by
  induction ts with
  | nil =>
    intro last _
    simp [parseCodexStream, codexContentJoin]
  | cons t rest ih =>
    intro last h
    obtain ⟨⟨u, hu⟩, hrest⟩ := h
    rw [List.map_cons, List.getLastD_cons]
    by_cases ht : t.isEmpty = true
    · have ht2 : t = [] := List.isEmpty_iff.mp ht
      have hl : last = [] := (List.append_eq_nil.mp (ht2 ▸ hu.symm)).1
      have hstep : parseCodexStream (mkTextEvent t :: rest.map mkTextEvent) last
          = parseCodexStream (rest.map mkTextEvent) last := by
        simp [parseCodexStream, mkTextEvent, processEvent, stepOutputs, ht]
      have hrest2 : chainExt [] rest := by rw [← ht2]; exact hrest
      rw [hstep, ht2, hl]
      exact ih [] hrest2
    · have hnc : t.drop last.length = u := by rw [hu, List.drop_left]
      by_cases hue : u.isEmpty = true
      · have hu2 : u = [] := List.isEmpty_iff.mp hue
        have ht2 : t = last := by rw [hu, hu2, List.append_nil]
        have hstep : parseCodexStream (mkTextEvent t :: rest.map mkTextEvent) last
            = parseCodexStream (rest.map mkTextEvent) last := by
          simp [parseCodexStream, mkTextEvent, processEvent, stepOutputs, ht, hnc, hu2]
        rw [hstep, ht2]
        exact ih last (ht2 ▸ hrest)
      · have hstep : parseCodexStream (mkTextEvent t :: rest.map mkTextEvent) last
            = .contentChunk u :: parseCodexStream (rest.map mkTextEvent) t := by
          simp [parseCodexStream, mkTextEvent, processEvent, stepOutputs, ht, hnc, hue]
        rw [hstep]
        have ihr := ih t hrest
        calc last ++ codexContentJoin (.contentChunk u :: parseCodexStream (rest.map mkTextEvent) t)
            = last ++ (u ++ codexContentJoin (parseCodexStream (rest.map mkTextEvent) t)) := by
              simp [codexContentJoin]
          _ = (last ++ u) ++ codexContentJoin (parseCodexStream (rest.map mkTextEvent) t) := by
              rw [List.append_assoc]
          _ = t ++ codexContentJoin (parseCodexStream (rest.map mkTextEvent) t) := by rw [hu]
          _ = rest.getLastD t := ihr

/-- C7: over any upstream event sequence whose accumulated texts grow by
prefix extension, each yielded delta is the forward difference between
the event's full accumulated text and the text already emitted (the
tracked `lastContent`), so the concatenation of all yielded content
deltas equals the final accumulated text; and once some text has been
emitted, a later event that extends it yields only the strict forward
difference — never its full accumulated text verbatim. -/
theorem codex_stream_prefix_diff (ts : List (List Char)) (h : chainExt [] ts) :
    codexContentJoin (parseCodexStream (ts.map mkTextEvent) []) = ts.getLastD []
    ∧ ∀ prev u, prev ≠ [] → u ≠ [] →
        parseCodexStream [mkTextEvent (prev ++ u)] prev = [CodexChunk.contentChunk u]
        ∧ u ≠ prev ++ u := by
  constructor
  · simpa using chainExt_join ts [] h
  · intro prev u hp hu
    constructor
    · have hne : (prev ++ u).isEmpty = false := by
        cases hpp : prev ++ u
        · exact absurd (List.append_eq_nil.mp hpp).2 hu
        · rfl
      have hdrop : (prev ++ u).drop prev.length = u := List.drop_left prev u
      have hue : u.isEmpty = false := by
        cases hu2 : u
        · exact absurd hu2 hu
        · rfl
      simp [parseCodexStream, mkTextEvent, processEvent, stepOutputs, hne, hdrop, hue]
    · intro heq
      have hlen := congrArg List.length heq
      rw [List.length_append] at hlen
      have : prev.length = 0 := by omega
      exact hp (List.length_eq_zero.mp this)

/-- Witness for `codex_stream_prefix_diff` at the two-event stream whose
accumulated texts are "h" and "hi": the emitted deltas are "h" then "i",
concatenating to "hi". -/
theorem codex_stream_prefix_diff_witness :
    codexContentJoin (parseCodexStream ([['h'], ['h', 'i']].map mkTextEvent) []) = ['h', 'i'] :=
  (codex_stream_prefix_diff [['h'], ['h', 'i']] ⟨⟨['h'], rfl⟩, ⟨['i'], rfl⟩, trivial⟩).1

/-! ### No empty-string content deltas (claim C8) -/

theorem stepOutputs_fold_ok (ts : List (List Char)) :
    ∀ acc : Option (List Char) × List Char,
      (∀ c, acc.1 = some c → c.isEmpty = false) →
      ∀ c, (ts.foldl stepOutputs acc).1 = some c → c.isEmpty = false := by
  induction ts with
  | nil => intro acc hacc; exact hacc
  | cons t rest ih =>
    intro acc hacc
    apply ih
    intro c hc
    simp only [stepOutputs] at hc
    split_ifs at hc with h1 h2
    · simp only [Option.some.injEq] at hc
      rw [← hc]
      simpa using h2
    · exact hacc c hc
    · exact hacc c hc

theorem processEvent_some_ok (last : List Char) (e : CodexEventData) :
    ∀ c, (processEvent last e).1 = some c → c.isEmpty = false := by
  intro c hc
  have hfold := stepOutputs_fold_ok e.outputTexts (Option.none, last)
    (by intro x hx; cases hx)
  unfold processEvent at hc
  cases hr : e.outputTexts.foldl stepOutputs (Option.none, last) with
  | mk r1 r2 =>
    rw [hr] at hc hfold
    cases r1 with
    | some d =>
      simp only [Option.some.injEq] at hc
      exact hfold c (by rw [hc])
    | none =>
      simp only at hc
      cases hps : e.fallbackParts with
      | some ps =>
        rw [hps] at hc
        simp only at hc
        split_ifs at hc with h1 h2
        simp only [Option.some.injEq] at hc
        rw [← hc]
        simpa using h2
      | none =>
        rw [hps] at hc
        cases hc

theorem parseCodexStream_all_ok (events : List CodexEvent) :
    ∀ last, (parseCodexStream events last).all codexChunkContentOk = true := by
  induction events with
  | nil => intro last; rfl
  | cons ev rest ih =>
    intro last
    cases ev with
    | done => rfl
    | malformed => simpa [parseCodexStream] using ih last
    | dataEvent e =>
      cases hp : processEvent last e with
      | mk c last2 =>
        cases c with
        | some d =>
          have hd : d.isEmpty = false := processEvent_some_ok last e d (by rw [hp])
          simp [parseCodexStream, hp, List.all_cons, codexChunkContentOk, hd, ih last2]
        | none =>
          simpa [parseCodexStream, hp] using ih last2

theorem agPartChunks_all_ok (p : AGStreamPart) :
    (agPartChunks p).all agChunkContentOk = true := by
  unfold agPartChunks
  cases ht : p.text with
  | some t =>
    by_cases htt : (t != "" && !p.thought) = true
    · have htne : (t != "") = true := ((Bool.and_eq_true _ _).mp htt).1
      cases hf : p.functionCall with
      | some nc =>
        cases nc with
        | mk n a => simp [htt, agChunkContentOk, htne]
      | none => simp [htt, agChunkContentOk, htne]
    · cases hf : p.functionCall with
      | some nc =>
        cases nc with
        | mk n a => simp [htt, agChunkContentOk]
      | none => simp [htt]
  | none =>
    cases hf : p.functionCall with
    | some nc =>
      cases nc with
      | mk n a => simp [agChunkContentOk]
    | none => simp

/-- C8: streaming delta computation never yields an empty-string content
delta — every chunk carrying a content field, emitted by either the
Codex stream parser or the Antigravity stream normalizer, carries a
non-empty string (finish and tool-call chunks carry no content field). -/
theorem stream_no_empty_delta :
    (∀ events last, (parseCodexStream events last).all codexChunkContentOk = true)
    ∧ (∀ events, (streamAntigravityResponse events).all agChunkContentOk = true) := by
  constructor
  · intro events last
    exact parseCodexStream_all_ok events last
  · intro events
    induction events with
    | nil => rfl
    | cons parts rest ih =>
      have hparts : (parts.foldr (fun p a => agPartChunks p ++ a) []).all agChunkContentOk
          = true := by
        induction parts with
        | nil => rfl
        | cons p ps ihp =>
          simp only [List.foldr_cons, List.all_append]
          exact Bool.and_eq_true_iff.mpr ⟨agPartChunks_all_ok p, ihp⟩
      simp only [streamAntigravityResponse, List.foldr_cons, List.all_append] at ih ⊢
      exact Bool.and_eq_true_iff.mpr ⟨hparts, ih⟩

/-! ### Codex full-response parsing (claim C10) -/

theorem overwriteStep_empty (acc t : List Char) (h : t.isEmpty = true) :
    overwriteStep acc t = acc := by
  simp [overwriteStep, h]

theorem overwriteStep_ne (acc t : List Char) (h : t.isEmpty = false) :
    overwriteStep acc t = t := by
  simp [overwriteStep, h]

theorem overwriteFold_all_empty (ts : List (List Char)) :
    ∀ content, ts.all (fun t => t.isEmpty) = true → overwriteFold content ts = content := by
  induction ts with
  | nil => intro content _; rfl
  | cons t rest ih =>
    intro content h
    rw [List.all_cons, Bool.and_eq_true] at h
    show overwriteFold (overwriteStep content t) rest = content
    rw [overwriteStep_empty content t h.1]
    exact ih content h.2

theorem overwriteFold_ne_nil (ts : List (List Char)) :
    ∀ content, content.isEmpty = false → (overwriteFold content ts).isEmpty = false := by
  induction ts with
  | nil => intro content h; exact h
  | cons t rest ih =>
    intro content h
    show (overwriteFold (overwriteStep content t) rest).isEmpty = false
    cases ht : t.isEmpty with
    | true =>
      rw [overwriteStep_empty content t ht]
      exact ih content h
    | false =>
      rw [overwriteStep_ne content t ht]
      exact ih t ht

theorem overwriteFold_of_mem_ne (ts : List (List Char)) :
    ∀ content, (∃ t ∈ ts, t.isEmpty = false) → (overwriteFold content ts).isEmpty = false := by
  induction ts with
  | nil =>
    intro content hc
    obtain ⟨t, ht, _⟩ := hc
    cases ht
  | cons t rest ih =>
    intro content hc
    show (overwriteFold (overwriteStep content t) rest).isEmpty = false
    cases ht : t.isEmpty with
    | true =>
      obtain ⟨t0, ht0, ht0e⟩ := hc
      rcases List.mem_cons.mp ht0 with he | he
      · rw [he] at ht0e
        rw [ht0e] at ht
        cases ht
      · rw [overwriteStep_empty content t ht]
        exact ih content ⟨t0, he, ht0e⟩
    | false =>
      rw [overwriteStep_ne content t ht]
      exact overwriteFold_ne_nil rest t ht

theorem lineContent_nil_of_noText (l : CodexEvent) (h : eventHasNoText l = true) :
    lineContent [] l = [] := by
  cases l with
  | done => rfl
  | malformed => rfl
  | dataEvent e =>
    simp only [eventHasNoText, Bool.and_eq_true] at h
    simp only [lineContent]
    rw [overwriteFold_all_empty e.outputTexts [] h.1]
    cases hps : e.fallbackParts with
    | some ps =>
      simp only [hps] at h
      have h2 : ps.headD [] = [] := List.isEmpty_iff.mp h.2
      have h3 : ps.head?.getD [] = [] := by simpa using h2
      simp [h2, h3]
    | none => simp

theorem lineContent_ne_nil_of_ne_nil (content : List Char) (l : CodexEvent)
    (h : content.isEmpty = false) : (lineContent content l).isEmpty = false := by
  cases l with
  | done => exact h
  | malformed => exact h
  | dataEvent e =>
    simp only [lineContent]
    have hc1 := overwriteFold_ne_nil e.outputTexts content h
    cases hps : e.fallbackParts with
    | some ps => simp [hps, hc1]
    | none => simp [hps, hc1]

theorem lineContent_ne_nil_of_text (content : List Char) (l : CodexEvent)
    (h : eventHasNoText l = false) : (lineContent content l).isEmpty = false := by
  cases l with
  | done => cases h
  | malformed => cases h
  | dataEvent e =>
    simp only [lineContent]
    by_cases ho : e.outputTexts.all (fun t => t.isEmpty) = true
    · cases hps : e.fallbackParts with
      | some ps =>
        have hh : (ps.headD []).isEmpty = false := by
          simp only [eventHasNoText, hps, ho, Bool.true_and] at h
          exact h
        by_cases hc1 : (overwriteFold content e.outputTexts).isEmpty = true
        · have hh2 : ¬ps.head?.getD [] = [] := by simpa using hh
          simp [hps, hc1, hh2]
        · rw [Bool.not_eq_true] at hc1
          simp [hps, hc1]
      | none =>
        exfalso
        simp only [eventHasNoText, hps, ho, Bool.true_and] at h
        cases h
    · have hex : ∃ t ∈ e.outputTexts, t.isEmpty = false := by
        by_contra hne
        push_neg at hne
        apply ho
        rw [List.all_eq_true]
        intro t ht
        cases htt : t.isEmpty with
        | true => rfl
        | false => exact absurd htt (hne t ht)
      have hc1 := overwriteFold_of_mem_ne e.outputTexts content hex
      cases hps : e.fallbackParts with
      | some ps => simp [hps, hc1]
      | none => simp [hps, hc1]

theorem foldl_lineContent_nil (lines : List CodexEvent)
    (h : lines.all eventHasNoText = true) : lines.foldl lineContent [] = [] := by
  induction lines with
  | nil => rfl
  | cons l rest ih =>
    rw [List.all_cons, Bool.and_eq_true] at h
    rw [List.foldl_cons, lineContent_nil_of_noText l h.1]
    exact ih h.2

theorem foldl_lineContent_ne_nil (lines : List CodexEvent)
    (h : lines.all eventHasNoText = false) :
    (lines.foldl lineContent []).isEmpty = false := by
  have mono : ∀ (ls : List CodexEvent) (c : List Char), c.isEmpty = false →
      (ls.foldl lineContent c).isEmpty = false := by
    intro ls
    induction ls with
    | nil => intro c hc; exact hc
    | cons l rest ih =>
      intro c hc
      rw [List.foldl_cons]
      exact ih _ (lineContent_ne_nil_of_ne_nil c l hc)
  induction lines with
  | nil => cases h
  | cons l rest ih =>
    rw [List.all_cons] at h
    rw [List.foldl_cons]
    by_cases hl : eventHasNoText l = true
    · rw [hl, Bool.true_and] at h
      rw [lineContent_nil_of_noText l hl]
      exact ih h
    · have hl2 : eventHasNoText l = false := by
        cases hll : eventHasNoText l
        · rfl
        · exact absurd hll hl
      exact mono rest _ (lineContent_ne_nil_of_text [] l hl2)

/-- C10: for every non-streaming Codex upstream response, the parsed
chat.completion's single choice always has finish_reason "stop" and never
carries tool_calls; and its message content is null exactly when no
output_text (or fallback `message.content.parts`) text could be parsed
from any `data:` line. -/
theorem parseCodexResponse_shape (lines : List CodexEvent) :
    (parseCodexResponse lines).finish_reason = "stop"
    ∧ (parseCodexResponse lines).tool_calls = Option.none
    ∧ ((parseCodexResponse lines).content = Option.none
        ↔ lines.all eventHasNoText = true) := by
  refine ⟨rfl, rfl, ?_⟩
  unfold parseCodexResponse
  by_cases h : lines.all eventHasNoText = true
  · simp [foldl_lineContent_nil lines h, h]
  · have h2 : lines.all eventHasNoText = false := by
      cases hh : lines.all eventHasNoText
      · rfl
      · exact absurd hh h
    have h3 := foldl_lineContent_ne_nil lines h2
    simp [h3, h2]

end DroidBridge
